import Mathlib

/-!
Shallow embedding of the raster-to-color-glyph pipeline found in the
`font_experiments` scripts (`create_three_color_blinka.py`,
`create_final_seventeen_color_blinka.py`, `create_fixed_six_color_blinka.py`,
`create_compensated_three_color_blinka.py`).

Python integers are modelled by `Int` (exact, signed); pixel coordinates,
which are produced by `range` loops, by `Nat`.  Pixel scans, list appends and
dict-of-list updates are modelled by `List.foldl` over the scan-order
coordinate list, exactly mirroring the loops in the scripts.
-/

/-- RGB triple as returned by `img.getpixel(..)[:3]`. -/
abbrev RGB := Nat × Nat × Nat

/-- Raster coordinate pair `(x, y)`. -/
abbrev Pix := Nat × Nat

/-- Font-unit rectangle `(left, bottom, right, top)` as drawn by the
`pen.moveTo/lineTo/closePath` sequence in the scripts. -/
structure Rect where
  left : Int
  bottom : Int
  right : Int
  top : Int
deriving DecidableEq

/-- Coordinate transform used (inlined) in `create_color_layer_glyph`
(`create_three_color_blinka.py`, lines 91-99):
`flipped_y = imageHeight - 1 - y`, `left = x*scale + xOffset`,
`right = left + scale`, `bottom = flipped_y*scale + yOffset`,
`top = bottom + scale`. -/
def mapRect (s xOff yOff h x y : Int) : Rect :=
  let flippedY := h - 1 - y
  let left := x * s + xOff
  let right := left + s
  let bottom := flippedY * s + yOff
  let top := bottom + s
  ⟨left, bottom, right, top⟩

/-- Scan order of the scripts: `for y in range(height): for x in range(width)`. -/
def scanCoords (w h : Nat) : List Pix :=
  (List.range h).flatMap (fun y => (List.range w).map (fun x => (x, y)))

/-- Decoded raster image: dimensions plus the pixel lookup
`img.getpixel((x, y))[:3]`. -/
structure Img where
  width : Nat
  height : Nat
  px : Nat → Nat → RGB

/-- Pixel lookup at a coordinate pair. -/
def Img.pixel (img : Img) (p : Pix) : RGB := img.px p.1 p.2

/-- Background colour convention of every script:
`bg_color = img.getpixel((0, 0))[:3]`. -/
def Img.bg (img : Img) : RGB := img.px 0 0

/-- White target colour of `create_three_color_blinka.py`. -/
def whiteRGB : RGB := (255, 255, 255)

/-- Light-blue target colour of `create_three_color_blinka.py`. -/
def lightBlueRGB : RGB := (166, 202, 240)

/-- One step of the three-colour pixel scan
(`create_three_color_blinka.py`, lines 47-62): skip background, then
first-match dispatch to the white / light-blue / catch-all purple lists. -/
def threeStep (bg : RGB) (pixel : Pix → RGB) (s : List Pix × List Pix × List Pix)
    (p : Pix) : List Pix × List Pix × List Pix :=
  let rgb := pixel p
  if rgb = bg then s
  else if rgb = whiteRGB then (s.1 ++ [p], s.2.1, s.2.2)
  else if rgb = lightBlueRGB then (s.1, s.2.1 ++ [p], s.2.2)
  else (s.1, s.2.1, s.2.2 ++ [p])

/-- Three-colour classification loop with the background colour as an
explicit input (the loop of lines 47-62 reads `bg_color` as a variable);
returns `(white_pixels, light_blue_pixels, purple_pixels)`. -/
def classifyThreeWith (bg : RGB) (pixel : Pix → RGB) (coords : List Pix) :
    List Pix × List Pix × List Pix :=
  coords.foldl (threeStep bg pixel) ([], [], [])

/-- Full three-colour classification of an image, with the script's
background convention `bg_color = img.getpixel((0, 0))[:3]`. -/
def classifyThree (img : Img) : List Pix × List Pix × List Pix :=
  classifyThreeWith img.bg img.pixel (scanCoords img.width img.height)

/-- LayerBuilder of `create_three_color_blinka.py` (lines 84-108): one
rectangle per pixel, in the list's order, with `scale_factor = 4`,
x offset `50`, y offset `100`; an empty list gives an empty glyph. -/
def create_color_layer_glyph (h : Int) (ps : List Pix) : List Rect :=
  ps.map (fun p => mapRect 4 50 100 h (p.1 : Int) (p.2 : Int))

/-- Python `min` over a non-empty list of integers (`0` on the empty list,
which the scripts never reach). -/
def minL : List Int → Int
  | [] => 0
  | [a] => a
  | a :: b :: rest => min a (minL (b :: rest))

/-- Python `max` over a non-empty list of integers (`0` on the empty list,
which the scripts never reach). -/
def maxL : List Int → Int
  | [] => 0
  | [a] => a
  | a :: b :: rest => max a (maxL (b :: rest))

/-- Raw x coordinates, `(x for x, y in pixels)`. -/
def xsOf (ps : List Pix) : List Int := ps.map (fun p => (p.1 : Int))

/-- Raw y coordinates, `(y for x, y in pixels)`. -/
def ysOf (ps : List Pix) : List Int := ps.map (fun p => (p.2 : Int))

/-- Flipped y coordinates, `(original_height - 1 - y for x, y in pixels)`. -/
def flipYsOf (h : Int) (ps : List Pix) : List Int :=
  ps.map (fun p => h - 1 - (p.2 : Int))

/-- Tight bounding rectangle of `create_base_outline_glyph`
(`create_three_color_blinka.py`, lines 124-143): min/max over raw x and
over flipped y, then `left = min_x*4 + 50`, `right = (max_x + 1)*4 + 50`,
`bottom = min_y*4 + 100`, `top = (max_y + 1)*4 + 100`. -/
def boundsBox (h : Int) (ps : List Pix) : Rect :=
  ⟨minL (xsOf ps) * 4 + 50,
   minL (flipYsOf h ps) * 4 + 100,
   (maxL (xsOf ps) + 1) * 4 + 50,
   (maxL (flipYsOf h ps) + 1) * 4 + 100⟩

/-- Advance width of the non-empty case
(`create_three_color_blinka.py`, lines 178-182, and
`create_final_seventeen_color_blinka.py`, line 246):
`glyph_width = (max_x - min_x + 2) * scale_factor + 100` with scale 4. -/
def glyphWidth (ps : List Pix) : Int :=
  (maxL (xsOf ps) - minL (xsOf ps) + 2) * 4 + 100

/-- BoundsCalculator glyph, `create_base_outline_glyph`
(`create_three_color_blinka.py`, lines 110-143): the fallback rectangle
`(50, 100)`–`(50 + scaled_width, 100 + scaled_height)` when no pixel is
visible, else the tight `boundsBox`. -/
def create_base_outline_glyph (img : Img) (allVisible : List Pix) : List Rect :=
  if allVisible = [] then
    [⟨50, 100, 50 + (img.width : Int) * 4, 100 + (img.height : Int) * 4⟩]
  else
    [boundsBox (img.height : Int) allVisible]

/-- Advance width with the empty fallback
(`create_three_color_blinka.py`, lines 178-184): `scaled_width + 100`
when no pixel is visible, else `glyphWidth`. -/
def glyphWidthOf (img : Img) (allVisible : List Pix) : Int :=
  if allVisible = [] then (img.width : Int) * 4 + 100
  else glyphWidth allVisible

/-- Index of the first element of `targets` equal to `rgb`, modelling
`for color in targets: if rgb == color: ... break`
(`create_final_seventeen_color_blinka.py`, lines 78-83). -/
def findColorIdx (rgb : RGB) : List RGB → Option Nat
  | [] => none
  | c :: rest => if c = rgb then some 0 else (findColorIdx rgb rest).map (· + 1)

/-- Append a pixel to the `i`-th group, modelling
`color_pixel_groups[color].append((x, y))` on the group list aligned with
the target-colour order (out-of-range `i` is a no-op, never reached). -/
def appendAt : List (List Pix) → Nat → Pix → List (List Pix)
  | [], _, _ => []
  | g :: gs, 0, p => (g ++ [p]) :: gs
  | g :: gs, i + 1, p => g :: appendAt gs i p

/-- One step of the exact-set seventeen-colour scan
(`create_final_seventeen_color_blinka.py`, lines 67-83): skip background,
record the pixel in `all_visible_pixels`, then append it to the group of
the first matching target colour; a pixel matching no target is recorded
in `all_visible_pixels` only.  State is `(groups, all_visible_pixels)`
with `groups` aligned to the target-colour list (the Python dict keyed by
colour, read back with `.get(color, [])` in target order). -/
def exactStep (bg : RGB) (pixel : Pix → RGB) (targets : List RGB)
    (s : List (List Pix) × List Pix) (p : Pix) : List (List Pix) × List Pix :=
  let rgb := pixel p
  if rgb = bg then s
  else
    let vis := s.2 ++ [p]
    match findColorIdx rgb targets with
    | some i => (appendAt s.1 i p, vis)
    | none => (s.1, vis)

/-- Exact-set classification scan over a coordinate list, returning the
target-aligned groups and `all_visible_pixels`. -/
def classifyExactWith (bg : RGB) (pixel : Pix → RGB) (targets : List RGB)
    (coords : List Pix) : List (List Pix) × List Pix :=
  coords.foldl (exactStep bg pixel targets) (targets.map (fun _ => []), [])

/-- Exact-set classification of an image with the script's background
convention. -/
def classifyExact (img : Img) (targets : List RGB) : List (List Pix) × List Pix :=
  classifyExactWith img.bg img.pixel targets (scanCoords img.width img.height)

/-- Target palette of `create_final_seventeen_color_blinka.py`
(lines 38-61). -/
def seventeenColors : List RGB :=
  [(255, 255, 255), (166, 202, 240), (128, 32, 192), (96, 24, 144),
   (96, 64, 128), (160, 32, 192), (61, 43, 52), (40, 49, 58),
   (102, 26, 154), (120, 24, 144), (128, 26, 154), (224, 160, 192),
   (64, 42, 85), (60, 40, 80), (38, 46, 55), (0, 64, 192), (56, 40, 48)]

/-- Index of the first maximum of a list of counts, modelling Python's
`max(items, key=...)`, which keeps the earliest element among ties
(`create_fixed_six_color_blinka.py`, line 70:
`max(top_6_colors, key=lambda c: len(color_pixels[c]))`). -/
def firstMaxIdx : List Nat → Nat
  | [] => 0
  | a :: rest =>
    let j := firstMaxIdx rest
    if rest.getD j 0 > a then j + 1 else 0

/-- One step of the six-colour scan with the merge-into-largest fallback
(`create_fixed_six_color_blinka.py`, lines 59-72): skip background; a pixel
of a target colour goes to that colour's group; any other pixel is appended
to the group that currently has the most pixels, ties resolved in favour of
the earliest target colour. -/
def sixStep (bg : RGB) (pixel : Pix → RGB) (targets : List RGB)
    (groups : List (List Pix)) (p : Pix) : List (List Pix) :=
  let rgb := pixel p
  if rgb = bg then groups
  else
    match findColorIdx rgb targets with
    | some i => appendAt groups i p
    | none => appendAt groups (firstMaxIdx (groups.map List.length)) p

/-- Six-colour classification scan over a coordinate list. -/
def classifySixWith (bg : RGB) (pixel : Pix → RGB) (targets : List RGB)
    (coords : List Pix) : List (List Pix) :=
  coords.foldl (sixStep bg pixel targets) (targets.map (fun _ => []))

/-- Per-layer x compensation of `create_compensated_three_color_blinka.py`
(lines 70-76): purple `0`, white `0`, light blue `12`. -/
def compensationPurple : Int := 0

/-- White layer compensation of `create_compensated_three_color_blinka.py`. -/
def compensationWhite : Int := 0

/-- Light-blue layer compensation of
`create_compensated_three_color_blinka.py`. -/
def compensationLightBlue : Int := 12

/-- LayerBuilder of `create_compensated_three_color_blinka.py`
(lines 87-117): identical to `create_color_layer_glyph` except that the
layer's `compensation` is added to the left and right x coordinates:
`compensated_left = x*4 + 50 + compensation`, `right = compensated_left + 4`. -/
def create_compensated_color_layer_glyph (h : Int) (ps : List Pix)
    (compensation : Int) : List Rect :=
  ps.map (fun p =>
    let flippedY : Int := h - 1 - (p.2 : Int)
    let baseLeft : Int := (p.1 : Int) * 4 + 50
    let compensatedLeft := baseLeft + compensation
    ⟨compensatedLeft, flippedY * 4 + 100, compensatedLeft + 4, flippedY * 4 + 104⟩)

/-- LayerBuilder of `create_final_seventeen_color_blinka.py`
(`create_layer_with_smart_spacers`, lines 127-179): when `needsSpacers` is
set and the pixel list is non-empty, the overall-shape corner coordinates
`(min_x, min_y)` and `(max_x, max_y)` not already present in the list are
appended as spacers; spacer pixels get a 1×1 rectangle, ordinary pixels the
normal 4×4 rectangle, with the same `left`/`bottom` formula as
`create_color_layer_glyph`. -/
def create_layer_with_smart_spacers (h : Int) (minx miny maxx maxy : Nat)
    (ps : List Pix) (needsSpacers : Bool) : List Rect :=
  let boundarySpacers : List Pix := [(minx, miny), (maxx, maxy)]
  let spacers : List Pix :=
    if needsSpacers && !ps.isEmpty then
      boundarySpacers.filter (fun s => !ps.contains s)
    else []
  (ps ++ spacers).map (fun p =>
    let flippedY : Int := h - 1 - (p.2 : Int)
    let left : Int := (p.1 : Int) * 4 + 50
    let bottom : Int := flippedY * 4 + 100
    if spacers.contains p then ⟨left, bottom, left + 1, bottom + 1⟩
    else ⟨left, bottom, left + 4, bottom + 4⟩)

/-- Containment order on rectangles: `outer` encloses `inner`. -/
def Rect.covers (outer inner : Rect) : Prop :=
  outer.left ≤ inner.left ∧ outer.bottom ≤ inner.bottom ∧
    inner.right ≤ outer.right ∧ inner.top ≤ outer.top

instance (outer inner : Rect) : Decidable (outer.covers inner) := by
  unfold Rect.covers; infer_instance

/-- Scenario A image: 2×2, pixel `(0, 0)` is `(128, 32, 192)`, the other
three pixels are `(0, 0, 0)`. -/
def scenAImg : Img :=
  ⟨2, 2, fun x y => if x = 0 ∧ y = 0 then (128, 32, 192) else (0, 0, 0)⟩

/-- All-background 2×2 image (every pixel equals the origin pixel). -/
def allBlackImg : Img := ⟨2, 2, fun _ _ => (0, 0, 0)⟩

/-- A 2×1 image whose origin pixel (the background) is `(0, 0, 0)` and whose
pixel `(1, 0)` has the colour `(1, 2, 3)`, which matches none of the
seventeen target colours. -/
def unmatchedImg : Img :=
  ⟨2, 1, fun x _ => if x = 1 then (1, 2, 3) else (0, 0, 0)⟩

/-- A 2×1 image whose origin pixel (the background) is `(0, 0, 0)` and whose
pixel `(1, 0)` is white, the first seventeen-colour target. -/
def whitePixImg : Img :=
  ⟨2, 1, fun x _ => if x = 1 then (255, 255, 255) else (0, 0, 0)⟩

/-- Membership filter of the white list in the three-colour scan. -/
def isWhitePick (bg : RGB) (pixel : Pix → RGB) (p : Pix) : Bool :=
  decide (pixel p ≠ bg ∧ pixel p = whiteRGB)

/-- Membership filter of the light-blue list in the three-colour scan. -/
def isLightBluePick (bg : RGB) (pixel : Pix → RGB) (p : Pix) : Bool :=
  decide (pixel p ≠ bg ∧ pixel p ≠ whiteRGB ∧ pixel p = lightBlueRGB)

/-- Membership filter of the catch-all purple list in the three-colour scan. -/
def isPurplePick (bg : RGB) (pixel : Pix → RGB) (p : Pix) : Bool :=
  decide (pixel p ≠ bg ∧ pixel p ≠ whiteRGB ∧ pixel p ≠ lightBlueRGB)

/-- Membership filter of `all_visible_pixels`. -/
def isVisiblePick (bg : RGB) (pixel : Pix → RGB) (p : Pix) : Bool :=
  decide (pixel p ≠ bg)

/-- Membership filter of the group at index `i` of the exact-set scan. -/
def isGroupPick (bg : RGB) (pixel : Pix → RGB) (targets : List RGB) (i : Nat)
    (p : Pix) : Bool :=
  decide (pixel p ≠ bg ∧ findColorIdx (pixel p) targets = some i)

/-- Fixture targets for the six-colour fallback demonstration. -/
def demoTargets : List RGB := [(1, 0, 0), (2, 0, 0), (3, 0, 0)]

/-- Fixture groups (all of length 1, so the tie goes to group 0). -/
def demoGroups : List (List Pix) := [[(0, 0)], [(1, 0)], [(2, 0)]]

/-- Fixture pixel lookup returning a colour outside `demoTargets`. -/
def demoPixelFun : Pix → RGB := fun _ => (9, 9, 9)

theorem minL_cons (a : Int) (l : List Int) (hl : l ≠ []) :
    minL (a :: l) = min a (minL l) := by
  cases l with
  | nil => exact absurd rfl hl
  | cons b rest => rfl

theorem maxL_cons (a : Int) (l : List Int) (hl : l ≠ []) :
    maxL (a :: l) = max a (maxL l) := by
  cases l with
  | nil => exact absurd rfl hl
  | cons b rest => rfl

theorem minL_le_of_mem {x : Int} {l : List Int} (hx : x ∈ l) : minL l ≤ x := by
  induction l with
  | nil => cases hx
  | cons a rest ih =>
    cases rest with
    | nil =>
      rcases List.mem_singleton.mp hx with rfl
      exact le_refl _
    | cons b r2 =>
      rw [minL_cons a (b :: r2) (by simp)]
      rcases List.mem_cons.mp hx with rfl | hmem
      · exact min_le_left _ _
      · exact le_trans (min_le_right _ _) (ih hmem)

theorem le_maxL_of_mem {x : Int} {l : List Int} (hx : x ∈ l) : x ≤ maxL l := by
  induction l with
  | nil => cases hx
  | cons a rest ih =>
    cases rest with
    | nil =>
      rcases List.mem_singleton.mp hx with rfl
      exact le_refl _
    | cons b r2 =>
      rw [maxL_cons a (b :: r2) (by simp)]
      rcases List.mem_cons.mp hx with rfl | hmem
      · exact le_max_left _ _
      · exact le_trans (ih hmem) (le_max_right _ _)

theorem flipYsOf_reverse (h : Int) (ps : List Pix) (hps : ps ≠ []) :
    minL (flipYsOf h ps) = h - 1 - maxL (ysOf ps) ∧
      maxL (flipYsOf h ps) = h - 1 - minL (ysOf ps) := by
  induction ps with
  | nil => exact absurd rfl hps
  | cons p rest ih =>
    cases rest with
    | nil => simp [flipYsOf, ysOf, minL, maxL]
    | cons q r2 =>
      have hne : (q :: r2 : List Pix) ≠ [] := by simp
      have hflip : flipYsOf h (q :: r2) ≠ [] := by simp [flipYsOf]
      have hys : ysOf (q :: r2) ≠ [] := by simp [ysOf]
      obtain ⟨ihmin, ihmax⟩ := ih hne
      constructor
      · have : flipYsOf h (p :: q :: r2) =
            (h - 1 - (p.2 : Int)) :: flipYsOf h (q :: r2) := rfl
        rw [this, minL_cons _ _ hflip, ihmin]
        have : ysOf (p :: q :: r2) = ((p.2 : Int)) :: ysOf (q :: r2) := rfl
        rw [this, maxL_cons _ _ hys]
        exact min_sub_sub_left (h - 1) _ _
      · have : flipYsOf h (p :: q :: r2) =
            (h - 1 - (p.2 : Int)) :: flipYsOf h (q :: r2) := rfl
        rw [this, maxL_cons _ _ hflip, ihmax]
        have : ysOf (p :: q :: r2) = ((p.2 : Int)) :: ysOf (q :: r2) := rfl
        rw [this, minL_cons _ _ hys]
        exact max_sub_sub_left (h - 1) _ _

theorem length_appendAt (gs : List (List Pix)) (i : Nat) (p : Pix) :
    (appendAt gs i p).length = gs.length := by
  induction gs generalizing i with
  | nil => rfl
  | cons g rest ih =>
    cases i with
    | zero => rfl
    | succ j => simp [appendAt, ih]

theorem getD_appendAt_self (gs : List (List Pix)) (i : Nat) (p : Pix)
    (hi : i < gs.length) : (appendAt gs i p).getD i [] = gs.getD i [] ++ [p] := by
  induction gs generalizing i with
  | nil => cases hi
  | cons g rest ih =>
    cases i with
    | zero => rfl
    | succ j =>
      have hj : j < rest.length := Nat.lt_of_succ_lt_succ hi
      simpa [appendAt] using ih j hj

theorem getD_appendAt_ne (gs : List (List Pix)) (i j : Nat) (p : Pix)
    (hij : j ≠ i) : (appendAt gs i p).getD j [] = gs.getD j [] := by
  induction gs generalizing i j with
  | nil => rfl
  | cons g rest ih =>
    cases i with
    | zero =>
      cases j with
      | zero => exact absurd rfl hij
      | succ k => rfl
    | succ i2 =>
      cases j with
      | zero => rfl
      | succ k =>
        have : k ≠ i2 := fun hk => hij (by rw [hk])
        simpa [appendAt] using ih i2 k this

theorem findColorIdx_none_iff (rgb : RGB) (l : List RGB) :
    findColorIdx rgb l = none ↔ ∀ c ∈ l, c ≠ rgb := by
  induction l with
  | nil => simp [findColorIdx]
  | cons c rest ih =>
    by_cases hc : c = rgb
    · simp [findColorIdx, hc]
    · simp [findColorIdx, hc, ih]

theorem findColorIdx_lt (rgb : RGB) (l : List RGB) (i : Nat)
    (hi : findColorIdx rgb l = some i) : i < l.length := by
  induction l generalizing i with
  | nil => cases hi
  | cons c rest ih =>
    by_cases hc : c = rgb
    · simp [findColorIdx, hc] at hi
      simp [List.length_cons]
      omega
    · simp [findColorIdx, hc] at hi
      obtain ⟨j, hj, rfl⟩ := hi
      have := ih j hj
      simpa using Nat.succ_lt_succ this

theorem firstMaxIdx_lt (l : List Nat) (hl : l ≠ []) : firstMaxIdx l < l.length := by
  induction l with
  | nil => exact absurd rfl hl
  | cons a rest ih =>
    by_cases hgt : rest.getD (firstMaxIdx rest) 0 > a
    · have hrest : rest ≠ [] := by
        intro h
        subst h
        simp [List.getD] at hgt
      simp only [firstMaxIdx, hgt, if_pos]
      exact Nat.succ_lt_succ (ih hrest)
    · simp only [firstMaxIdx, hgt, if_neg, Nat.not_lt] at *
      simp [firstMaxIdx, hgt]

theorem firstMaxIdx_is_max (l : List Nat) (k : Nat) (hk : k < l.length) :
    l.getD k 0 ≤ l.getD (firstMaxIdx l) 0 := by
  induction l generalizing k with
  | nil => cases hk
  | cons a rest ih =>
    by_cases hgt : rest.getD (firstMaxIdx rest) 0 > a
    · simp only [firstMaxIdx, hgt, if_pos]
      cases k with
      | zero => simpa using le_of_lt hgt
      | succ k2 =>
        have hk2 : k2 < rest.length := Nat.lt_of_succ_lt_succ hk
        simpa using ih k2 hk2
    · simp only [firstMaxIdx, hgt, if_neg]
      cases k with
      | zero => simp
      | succ k2 =>
        have hk2 : k2 < rest.length := Nat.lt_of_succ_lt_succ hk
        have h1 := ih k2 hk2
        have h2 : rest.getD (firstMaxIdx rest) 0 ≤ a := Nat.not_lt.mp hgt
        simpa using le_trans h1 h2

theorem firstMaxIdx_is_first (l : List Nat) (k : Nat) (hk : k < firstMaxIdx l) :
    l.getD k 0 < l.getD (firstMaxIdx l) 0 := by
  induction l generalizing k with
  | nil => cases hk
  | cons a rest ih =>
    by_cases hgt : rest.getD (firstMaxIdx rest) 0 > a
    · simp only [firstMaxIdx, hgt, if_pos] at hk ⊢
      cases k with
      | zero => simpa using hgt
      | succ k2 =>
        have hk2 : k2 < firstMaxIdx rest := Nat.lt_of_succ_lt_succ hk
        simpa using ih k2 hk2
    · simp only [firstMaxIdx, hgt, if_neg] at hk
      cases hk

theorem mem_scanCoords (w h : Nat) (p : Pix) :
    p ∈ scanCoords w h ↔ p.1 < w ∧ p.2 < h := by
  constructor
  · intro hp
    simp only [scanCoords, List.mem_flatMap, List.mem_map, List.mem_range] at hp
    obtain ⟨y, hy, x, hx, rfl⟩ := hp
    exact ⟨hx, hy⟩
  · intro ⟨hx, hy⟩
    simp only [scanCoords, List.mem_flatMap, List.mem_map, List.mem_range]
    exact ⟨p.2, hy, p.1, hx, rfl⟩

theorem classifyThree_fold_char (bg : RGB) (pixel : Pix → RGB)
    (coords : List Pix) (s : List Pix × List Pix × List Pix) :
    coords.foldl (threeStep bg pixel) s =
      (s.1 ++ coords.filter (isWhitePick bg pixel),
       s.2.1 ++ coords.filter (isLightBluePick bg pixel),
       s.2.2 ++ coords.filter (isPurplePick bg pixel)) := by
  induction coords generalizing s with
  | nil => simp
  | cons p rest ih =>
    rw [List.foldl_cons]
    by_cases hbg : pixel p = bg
    · have e1 : isWhitePick bg pixel p = false := by
        simp only [isWhitePick, decide_eq_false_iff_not]; tauto
      have e2 : isLightBluePick bg pixel p = false := by
        simp only [isLightBluePick, decide_eq_false_iff_not]; tauto
      have e3 : isPurplePick bg pixel p = false := by
        simp only [isPurplePick, decide_eq_false_iff_not]; tauto
      simp only [threeStep, if_pos hbg, ih, List.filter_cons, e1, e2, e3]
      simp
    · by_cases hw : pixel p = whiteRGB
      · have e1 : isWhitePick bg pixel p = true := by
          simp only [isWhitePick, decide_eq_true_eq]; tauto
        have e2 : isLightBluePick bg pixel p = false := by
          simp only [isLightBluePick, decide_eq_false_iff_not]; tauto
        have e3 : isPurplePick bg pixel p = false := by
          simp only [isPurplePick, decide_eq_false_iff_not]; tauto
        simp only [threeStep, if_neg hbg, if_pos hw, ih, List.filter_cons,
          e1, e2, e3]
        simp
      · by_cases hl : pixel p = lightBlueRGB
        · have e1 : isWhitePick bg pixel p = false := by
            simp only [isWhitePick, decide_eq_false_iff_not]; tauto
          have e2 : isLightBluePick bg pixel p = true := by
            simp only [isLightBluePick, decide_eq_true_eq]; tauto
          have e3 : isPurplePick bg pixel p = false := by
            simp only [isPurplePick, decide_eq_false_iff_not]; tauto
          simp only [threeStep, if_neg hbg, if_neg hw, if_pos hl, ih,
            List.filter_cons, e1, e2, e3]
          simp
        · have e1 : isWhitePick bg pixel p = false := by
            simp only [isWhitePick, decide_eq_false_iff_not]; tauto
          have e2 : isLightBluePick bg pixel p = false := by
            simp only [isLightBluePick, decide_eq_false_iff_not]; tauto
          have e3 : isPurplePick bg pixel p = true := by
            simp only [isPurplePick, decide_eq_true_eq]; tauto
          simp only [threeStep, if_neg hbg, if_neg hw, if_neg hl, ih,
            List.filter_cons, e1, e2, e3]
          simp

theorem classifyThreeWith_char (bg : RGB) (pixel : Pix → RGB) (coords : List Pix) :
    classifyThreeWith bg pixel coords =
      (coords.filter (isWhitePick bg pixel),
       coords.filter (isLightBluePick bg pixel),
       coords.filter (isPurplePick bg pixel)) := by
  simpa using classifyThree_fold_char bg pixel coords ([], [], [])

theorem classifyExact_fold_char (bg : RGB) (pixel : Pix → RGB)
    (targets : List RGB) (coords : List Pix) (gs : List (List Pix))
    (vs : List Pix) (hlen : targets.length ≤ gs.length) :
    (coords.foldl (exactStep bg pixel targets) (gs, vs)).2 =
        vs ++ coords.filter (isVisiblePick bg pixel) ∧
      (coords.foldl (exactStep bg pixel targets) (gs, vs)).1.length = gs.length ∧
      ∀ i, (coords.foldl (exactStep bg pixel targets) (gs, vs)).1.getD i [] =
        gs.getD i [] ++ coords.filter (isGroupPick bg pixel targets i) := by
  induction coords generalizing gs vs with
  | nil => simp
  | cons p rest ih =>
    rw [List.foldl_cons]
    by_cases hbg : pixel p = bg
    · have hv : isVisiblePick bg pixel p = false := by
        simp only [isVisiblePick, decide_eq_false_iff_not]; tauto
      have hg : ∀ i, isGroupPick bg pixel targets i p = false := by
        intro i
        simp only [isGroupPick, decide_eq_false_iff_not]; tauto
      have hstep : exactStep bg pixel targets (gs, vs) p = (gs, vs) := by
        simp [exactStep, hbg]
      rw [hstep]
      obtain ⟨ih1, ih2, ih3⟩ := ih gs vs hlen
      refine ⟨?_, ih2, ?_⟩
      · simp [ih1, List.filter_cons, hv]
      · intro i
        rw [ih3 i]
        simp [List.filter_cons, hg i]
    · have hv : isVisiblePick bg pixel p = true := by
        simp only [isVisiblePick, decide_eq_true_eq]; tauto
      cases hfind : findColorIdx (pixel p) targets with
      | none =>
        have hg : ∀ i, isGroupPick bg pixel targets i p = false := by
          intro i
          simp only [isGroupPick, decide_eq_false_iff_not]
          intro ⟨_, hsome⟩
          rw [hfind] at hsome
          cases hsome
        have hstep : exactStep bg pixel targets (gs, vs) p = (gs, vs ++ [p]) := by
          simp [exactStep, hbg, hfind]
        rw [hstep]
        obtain ⟨ih1, ih2, ih3⟩ := ih gs (vs ++ [p]) hlen
        refine ⟨?_, ih2, ?_⟩
        · simp [ih1, List.filter_cons, hv]
        · intro i
          rw [ih3 i]
          simp [List.filter_cons, hg i]
      | some i0 =>
        have hi0 : i0 < gs.length :=
          lt_of_lt_of_le (findColorIdx_lt _ _ _ hfind) hlen
        have hstep : exactStep bg pixel targets (gs, vs) p =
            (appendAt gs i0 p, vs ++ [p]) := by
          simp [exactStep, hbg, hfind]
        rw [hstep]
        have hlen2 : targets.length ≤ (appendAt gs i0 p).length := by
          rw [length_appendAt]; exact hlen
        obtain ⟨ih1, ih2, ih3⟩ := ih (appendAt gs i0 p) (vs ++ [p]) hlen2
        refine ⟨?_, ?_, ?_⟩
        · simp [ih1, List.filter_cons, hv]
        · rw [ih2, length_appendAt]
        · intro i
          by_cases hii : i = i0
          · subst hii
            have hgt : isGroupPick bg pixel targets i p = true := by
              simp only [isGroupPick, decide_eq_true_eq]
              exact ⟨hbg, hfind⟩
            rw [ih3 i, getD_appendAt_self gs i p hi0]
            simp [List.filter_cons, hgt]
          · have hgf : isGroupPick bg pixel targets i p = false := by
              simp only [isGroupPick, decide_eq_false_iff_not]
              intro ⟨_, hsome⟩
              rw [hfind] at hsome
              exact hii (Option.some.inj hsome).symm
            rw [ih3 i, getD_appendAt_ne gs i0 i p hii]
            simp [List.filter_cons, hgf]

theorem classifyExactWith_char (bg : RGB) (pixel : Pix → RGB)
    (targets : List RGB) (coords : List Pix) :
    (classifyExactWith bg pixel targets coords).2 =
        coords.filter (isVisiblePick bg pixel) ∧
      (classifyExactWith bg pixel targets coords).1.length = targets.length ∧
      ∀ i, (classifyExactWith bg pixel targets coords).1.getD i [] =
        coords.filter (isGroupPick bg pixel targets i) := by
  have hinit : ∀ i, (targets.map (fun _ => ([] : List Pix))).getD i [] = [] := by
    intro i
    induction targets generalizing i with
    | nil => simp
    | cons c rest ihc =>
      cases i with
      | zero => rfl
      | succ j => exact ihc j
  have hlen : targets.length ≤ (targets.map (fun _ => ([] : List Pix))).length := by
    simp
  obtain ⟨h1, h2, h3⟩ :=
    classifyExact_fold_char bg pixel targets coords
      (targets.map (fun _ => [])) [] hlen
  refine ⟨?_, ?_, ?_⟩
  · rw [classifyExactWith]
    exact h1.trans (List.nil_append _)
  · rw [classifyExactWith]
    simpa using h2
  · intro i
    have hthis := h3 i
    rw [hinit i] at hthis
    rw [classifyExactWith]
    exact hthis.trans (List.nil_append _)

/-- C1: the compensated variant builds different layers of the same
composite glyph with different x-offset parameters.  Evaluated at the
failing input — pixel `(0, 0)`, image height 2: the light-blue layer
(compensation `+12`) puts the pixel's rectangle at `left = 62`, while the
purple layer (compensation `0`) and the shared uncompensated builder put
the same pixel at `left = 50`, so two layers of one composite glyph
disagree on the rectangle of the same pixel. -/
theorem c1_compensated_layer_divergence :
    create_compensated_color_layer_glyph 2 [(0, 0)] compensationLightBlue =
        [⟨62, 104, 66, 108⟩] ∧
      create_compensated_color_layer_glyph 2 [(0, 0)] compensationPurple =
        [⟨50, 104, 54, 108⟩] ∧
      create_compensated_color_layer_glyph 2 [(0, 0)] compensationLightBlue ≠
        create_compensated_color_layer_glyph 2 [(0, 0)] compensationPurple ∧
      create_color_layer_glyph 2 [(0, 0)] = [⟨50, 104, 54, 108⟩] := by
  decide

/-- C2 counterexample: on the Scenario A image the script derives the
background from the origin pixel, which is `(128, 32, 192)`, not
`(0, 0, 0)`; so pixel `(0, 0)` is skipped as background and the three
`(0, 0, 0)` pixels (which differ from this background) land in the purple
group — no group is `[(0, 0)]`. -/
theorem c2_counterexample :
    classifyThree scenAImg = ([], [], [(1, 0), (0, 1), (1, 1)]) ∧
      (classifyThree scenAImg).2.2 ≠ [((0, 0) : Pix)] := by
  decide

/-- C2 amended: with the background colour `(0, 0, 0)` supplied to the
classification loop directly (overriding the origin-pixel convention the
script uses), Scenario A behaves as claimed: exactly one group — the
catch-all purple one — is non-empty and contains exactly pixel `(0, 0)`,
and the layer built from it is one rectangle with `left = 50`,
`bottom = 104`, `right = 54`, `top = 108`. -/
theorem c2_scenarioA_with_explicit_background :
    classifyThreeWith (0, 0, 0) scenAImg.pixel (scanCoords 2 2) =
        ([], [], [(0, 0)]) ∧
      create_color_layer_glyph 2 [(0, 0)] = [⟨50, 104, 54, 108⟩] := by
  decide

/-- C5 counterexample: `create_layer_with_smart_spacers` with spacers
enabled builds three contours from a one-pixel group (the pixel plus two
corner spacers), so the contour count is not the pixel count. -/
theorem c5_counterexample :
    (create_layer_with_smart_spacers 3 0 0 2 2 [(1, 1)] true).length = 3 ∧
      ([((1, 1) : Pix)]).length = 1 ∧ (3 : Nat) ≠ 1 := by
  decide

/-- C5 amended: `create_color_layer_glyph` does build exactly one rectangle
per pixel, in the list's order, with an empty list giving an empty glyph;
`create_layer_with_smart_spacers` agrees with it when spacers are disabled,
but with spacers enabled it may append up to two extra 1×1 corner-spacer
rectangles, so its contour count lies between `n` and `n + 2`. -/
theorem c5_layer_contours (h : Int) (minx miny maxx maxy : Nat) (ps : List Pix) :
    (create_color_layer_glyph h ps).length = ps.length ∧
      create_color_layer_glyph h [] = [] ∧
      (∀ i : Nat, (create_color_layer_glyph h ps)[i]? =
        (ps[i]?).map (fun p : Pix => mapRect 4 50 100 h (p.1 : Int) (p.2 : Int))) ∧
      create_layer_with_smart_spacers h minx miny maxx maxy ps false =
        create_color_layer_glyph h ps ∧
      ps.length ≤
        (create_layer_with_smart_spacers h minx miny maxx maxy ps true).length ∧
      (create_layer_with_smart_spacers h minx miny maxx maxy ps true).length ≤
        ps.length + 2 := by
  refine ⟨List.length_map _ _, rfl, ?_, ?_, ?_, ?_⟩
  · intro i
    simp [create_color_layer_glyph]
  · simp [create_layer_with_smart_spacers, create_color_layer_glyph, mapRect]
  · simp only [create_layer_with_smart_spacers, List.length_map,
      List.length_append]
    exact Nat.le_add_right _ _
  · simp only [create_layer_with_smart_spacers, List.length_map,
      List.length_append]
    refine Nat.add_le_add_left ?_ _
    by_cases hps : ps.isEmpty
    · simp [hps]
    · simp only [hps, Bool.not_false, Bool.true_and]
      calc (List.filter (fun s => !ps.contains s) [(minx, miny), (maxx, maxy)]).length
          ≤ ([(minx, miny), (maxx, maxy)] : List Pix).length :=
            List.length_filter_le _ _
        _ = 2 := rfl

/-- C7: the coordinate transform is exactly invertible — dividing
`left - xOffset` by the scale factor recovers `x` and dividing
`bottom - yOffset` recovers the flipped row `imageHeight - 1 - y`, with no
rounding loss, and mapping the same pixel with identical parameters gives
the identical rectangle. -/
theorem c7_mapper_roundtrip (s xOff yOff h x y : Int) (hs : 0 < s) :
    ((mapRect s xOff yOff h x y).left - xOff) / s = x ∧
      ((mapRect s xOff yOff h x y).bottom - yOff) / s = h - 1 - y ∧
      mapRect s xOff yOff h x y = mapRect s xOff yOff h x y := by
  refine ⟨?_, ?_, rfl⟩
  · show (x * s + xOff - xOff) / s = x
    rw [add_sub_cancel_right]
    exact Int.mul_ediv_cancel x (ne_of_gt hs)
  · show ((h - 1 - y) * s + yOff - yOff) / s = h - 1 - y
    rw [add_sub_cancel_right]
    exact Int.mul_ediv_cancel _ (ne_of_gt hs)

/-- Witness for C7 at the concrete Scenario A parameters. -/
theorem c7_witness :
    (0 : Int) < 4 ∧
      ((mapRect 4 50 100 2 0 0).left - 50) / 4 = 0 ∧
      ((mapRect 4 50 100 2 0 0).bottom - 100) / 4 = 2 - 1 - 0 ∧
      mapRect 4 50 100 2 0 0 = mapRect 4 50 100 2 0 0 :=
  ⟨by decide, c7_mapper_roundtrip 4 50 100 2 0 0 (by decide)⟩

/-- C6: on an all-background image (every pixel equal to the origin pixel)
the pipeline completes without error: all three colour groups are empty,
every layer glyph has zero contours, the base outline glyph is the
documented fallback rectangle `(50, 100)`–`(50 + 4w, 100 + 4h)`, and the
advance width is the default `4w + 100`. -/
theorem c6_all_background_defaults (img : Img)
    (hbg : ∀ x, x < img.width → ∀ y, y < img.height → img.px x y = img.px 0 0) :
    classifyThree img = ([], [], []) ∧
      create_color_layer_glyph (img.height : Int) (classifyThree img).1 = [] ∧
      create_color_layer_glyph (img.height : Int) (classifyThree img).2.1 = [] ∧
      create_color_layer_glyph (img.height : Int) (classifyThree img).2.2 = [] ∧
      create_base_outline_glyph img
          ((classifyThree img).1 ++ (classifyThree img).2.1 ++
            (classifyThree img).2.2) =
        [⟨50, 100, 50 + (img.width : Int) * 4, 100 + (img.height : Int) * 4⟩] ∧
      glyphWidthOf img
          ((classifyThree img).1 ++ (classifyThree img).2.1 ++
            (classifyThree img).2.2) =
        (img.width : Int) * 4 + 100 := by
  have hall : ∀ p ∈ scanCoords img.width img.height, img.pixel p = img.bg := by
    intro p hp
    obtain ⟨hx, hy⟩ := (mem_scanCoords _ _ p).mp hp
    exact hbg p.1 hx p.2 hy
  have hcls : classifyThree img = ([], [], []) := by
    rw [classifyThree, classifyThreeWith_char]
    have h1 : (scanCoords img.width img.height).filter
        (isWhitePick img.bg img.pixel) = [] := by
      rw [List.filter_eq_nil_iff]
      intro p hp
      simp only [isWhitePick, decide_eq_true_eq]
      intro ⟨hne, _⟩
      exact hne (hall p hp)
    have h2 : (scanCoords img.width img.height).filter
        (isLightBluePick img.bg img.pixel) = [] := by
      rw [List.filter_eq_nil_iff]
      intro p hp
      simp only [isLightBluePick, decide_eq_true_eq]
      intro ⟨hne, _⟩
      exact hne (hall p hp)
    have h3 : (scanCoords img.width img.height).filter
        (isPurplePick img.bg img.pixel) = [] := by
      rw [List.filter_eq_nil_iff]
      intro p hp
      simp only [isPurplePick, decide_eq_true_eq]
      intro ⟨hne, _⟩
      exact hne (hall p hp)
    rw [h1, h2, h3]
  rw [hcls]
  refine ⟨rfl, rfl, rfl, rfl, ?_, ?_⟩
  · simp [create_base_outline_glyph]
  · simp [glyphWidthOf]

/-- Witness for C6: the concrete all-black 2×2 image. -/
theorem c6_witness :
    (∀ x, x < allBlackImg.width → ∀ y, y < allBlackImg.height →
        allBlackImg.px x y = allBlackImg.px 0 0) ∧
      classifyThree allBlackImg = ([], [], []) ∧
      glyphWidthOf allBlackImg
          ((classifyThree allBlackImg).1 ++ (classifyThree allBlackImg).2.1 ++
            (classifyThree allBlackImg).2.2) =
        (allBlackImg.width : Int) * 4 + 100 := by
  have h := c6_all_background_defaults allBlackImg (by decide)
  exact ⟨by decide, h.1, h.2.2.2.2.2⟩

/-- C3 counterexample: the exact-set seventeen-colour classifier drops a
non-background pixel whose colour matches no target: on `unmatchedImg` the
pixel `(1, 0)` is visible (non-background) yet every one of the seventeen
groups is empty, so the union of the groups misses it. -/
theorem c3_counterexample :
    (classifyExact unmatchedImg seventeenColors).1 =
        List.replicate 17 ([] : List Pix) ∧
      (classifyExact unmatchedImg seventeenColors).2 = [(1, 0)] ∧
      ((1, 0) : Pix) ∈ scanCoords unmatchedImg.width unmatchedImg.height ∧
      unmatchedImg.pixel (1, 0) ≠ unmatchedImg.bg := by
  decide

/-- C3 amended: the catch-all three-colour classifier does partition the
non-background pixels (union equals the visible pixels of the scan, lists
pairwise disjoint); the exact-set classifier guarantees pairwise-disjoint
groups containing only non-background pixels, but a non-background pixel
matching no target colour belongs to no group. -/
theorem c3_partition (img : Img) (targets : List RGB) :
    (∀ p : Pix,
        (p ∈ (classifyThree img).1 ∨ p ∈ (classifyThree img).2.1 ∨
          p ∈ (classifyThree img).2.2) ↔
        (p ∈ scanCoords img.width img.height ∧ img.pixel p ≠ img.bg)) ∧
      (∀ p : Pix, ¬(p ∈ (classifyThree img).1 ∧ p ∈ (classifyThree img).2.1)) ∧
      (∀ p : Pix, ¬(p ∈ (classifyThree img).1 ∧ p ∈ (classifyThree img).2.2)) ∧
      (∀ p : Pix, ¬(p ∈ (classifyThree img).2.1 ∧ p ∈ (classifyThree img).2.2)) ∧
      (∀ i j : Nat, i ≠ j → ∀ p : Pix,
        p ∈ (classifyExact img targets).1.getD i [] →
        p ∉ (classifyExact img targets).1.getD j []) ∧
      (∀ i : Nat, ∀ p : Pix, p ∈ (classifyExact img targets).1.getD i [] →
        p ∈ scanCoords img.width img.height ∧ img.pixel p ≠ img.bg) := by
  obtain ⟨he1, he2, he3⟩ :=
    classifyExactWith_char img.bg img.pixel targets
      (scanCoords img.width img.height)
  refine ⟨?_, ?_, ?_, ?_, ?_, ?_⟩
  · intro p
    rw [classifyThree, classifyThreeWith_char]
    simp only [List.mem_filter, isWhitePick, isLightBluePick, isPurplePick,
      decide_eq_true_eq]
    constructor
    · rintro (⟨hm, h⟩ | ⟨hm, h⟩ | ⟨hm, h⟩) <;> exact ⟨hm, h.1⟩
    · intro ⟨hm, hne⟩
      by_cases hw : img.pixel p = whiteRGB
      · exact Or.inl ⟨hm, hne, hw⟩
      · by_cases hl : img.pixel p = lightBlueRGB
        · exact Or.inr (Or.inl ⟨hm, hne, hw, hl⟩)
        · exact Or.inr (Or.inr ⟨hm, hne, hw, hl⟩)
  · intro p
    rw [classifyThree, classifyThreeWith_char]
    simp only [List.mem_filter, isWhitePick, isLightBluePick,
      decide_eq_true_eq]
    tauto
  · intro p
    rw [classifyThree, classifyThreeWith_char]
    simp only [List.mem_filter, isWhitePick, isPurplePick, decide_eq_true_eq]
    tauto
  · intro p
    rw [classifyThree, classifyThreeWith_char]
    simp only [List.mem_filter, isLightBluePick, isPurplePick,
      decide_eq_true_eq]
    tauto
  · intro i j hij p hpi
    rw [classifyExact, he3 j]
    rw [classifyExact, he3 i] at hpi
    obtain ⟨_, hgi⟩ := List.mem_filter.mp hpi
    simp only [isGroupPick, decide_eq_true_eq] at hgi
    intro hpj
    obtain ⟨_, hgj⟩ := List.mem_filter.mp hpj
    simp only [isGroupPick, decide_eq_true_eq] at hgj
    rw [hgi.2] at hgj
    exact hij (Option.some.inj hgj.2)
  · intro i p hpi
    rw [classifyExact, he3 i] at hpi
    obtain ⟨hm, hgi⟩ := List.mem_filter.mp hpi
    simp only [isGroupPick, decide_eq_true_eq] at hgi
    exact ⟨hm, hgi.1⟩

/-- Witness for C3 at the concrete white-pixel image: the white pixel lands
in group 0 and therefore not in group 1, and it is non-background. -/
theorem c3_witness :
    ((1, 0) : Pix) ∉ (classifyExact whitePixImg seventeenColors).1.getD 1 [] ∧
      whitePixImg.pixel (1, 0) ≠ whitePixImg.bg :=
  ⟨(c3_partition whitePixImg seventeenColors).2.2.2.2.1 0 1 (by decide) (1, 0)
      (by decide),
    ((c3_partition whitePixImg seventeenColors).2.2.2.2.2 0 (1, 0)
      (by decide)).2⟩

/-- C4 counterexample: with the exact-set policy, no fallback, and a
non-background pixel whose colour `(1, 2, 3)` matches no target, the
seventeen-colour scan does not fail at all: it completes with the pixel
counted as visible but assigned to no group (silently dropped), which the
claim says cannot happen. -/
theorem c4_counterexample :
    findColorIdx (unmatchedImg.pixel (1, 0)) seventeenColors = none ∧
      unmatchedImg.pixel (1, 0) ≠ unmatchedImg.bg ∧
      (classifyExact unmatchedImg seventeenColors).1 =
        List.replicate 17 ([] : List Pix) ∧
      (classifyExact unmatchedImg seventeenColors).2 =
        [((1, 0) : Pix)] := by
  decide

/-- C4 amended: the exact-set scan without fallback never raises an error;
a non-background pixel whose colour matches no target colour is recorded in
`all_visible_pixels` (the `remaining pixels` total) but is assigned to no
colour group. -/
theorem c4_unmatched_pixel_dropped (img : Img) (targets : List RGB) (p : Pix)
    (hp : p ∈ scanCoords img.width img.height)
    (hbg : img.pixel p ≠ img.bg)
    (hmiss : ∀ c ∈ targets, c ≠ img.pixel p) :
    p ∈ (classifyExact img targets).2 ∧
      ∀ i : Nat, p ∉ (classifyExact img targets).1.getD i [] := by
  obtain ⟨he1, he2, he3⟩ :=
    classifyExactWith_char img.bg img.pixel targets
      (scanCoords img.width img.height)
  have hnone : findColorIdx (img.pixel p) targets = none :=
    (findColorIdx_none_iff _ _).mpr hmiss
  constructor
  · rw [classifyExact, he1]
    refine List.mem_filter.mpr ⟨hp, ?_⟩
    simp only [isVisiblePick, decide_eq_true_eq]
    exact hbg
  · intro i
    rw [classifyExact, he3 i]
    intro hmem
    obtain ⟨_, hpick⟩ := List.mem_filter.mp hmem
    simp only [isGroupPick, decide_eq_true_eq] at hpick
    rw [hnone] at hpick
    cases hpick.2

/-- Witness for C4 at the concrete unmatched-colour image. -/
theorem c4_witness :
    ((1, 0) : Pix) ∈ (classifyExact unmatchedImg seventeenColors).2 ∧
      ((1, 0) : Pix) ∉ (classifyExact unmatchedImg seventeenColors).1.getD 0 [] := by
  have h := c4_unmatched_pixel_dropped unmatchedImg seventeenColors (1, 0)
    (by decide) (by decide) (by decide)
  exact ⟨h.1, h.2 0⟩

theorem getD_map_length (gs : List (List Pix)) (k : Nat) (hk : k < gs.length) :
    (gs.map List.length).getD k 0 = (gs.getD k []).length := by
  induction gs generalizing k with
  | nil => cases hk
  | cons g rest ih =>
    cases k with
    | zero => rfl
    | succ j => simpa using ih j (Nat.lt_of_succ_lt_succ hk)

/-- C8: adding a pixel whose raw x or raw y lies strictly outside the
current min/max raw coordinates strictly enlarges the bounding box computed
by `create_base_outline_glyph` (the new box covers the old one and differs
from it), and the advance width is non-decreasing under adding any pixel. -/
theorem c8_bounds_monotone (h : Int) (ps : List Pix) (q : Pix) (hps : ps ≠ [])
    (hout : (q.1 : Int) < minL (xsOf ps) ∨ maxL (xsOf ps) < (q.1 : Int) ∨
      (q.2 : Int) < minL (ysOf ps) ∨ maxL (ysOf ps) < (q.2 : Int)) :
    (boundsBox h (q :: ps)).covers (boundsBox h ps) ∧
      boundsBox h (q :: ps) ≠ boundsBox h ps ∧
      ∀ r : Pix, glyphWidth ps ≤ glyphWidth (r :: ps) := by
  have hxs : xsOf ps ≠ [] := by simp [xsOf, hps]
  have hfl : flipYsOf h ps ≠ [] := by simp [flipYsOf, hps]
  have hminx : minL (xsOf (q :: ps)) = min ((q.1 : Int)) (minL (xsOf ps)) :=
    minL_cons _ _ hxs
  have hmaxx : maxL (xsOf (q :: ps)) = max ((q.1 : Int)) (maxL (xsOf ps)) :=
    maxL_cons _ _ hxs
  have hminf : minL (flipYsOf h (q :: ps)) =
      min (h - 1 - (q.2 : Int)) (minL (flipYsOf h ps)) :=
    minL_cons _ _ hfl
  have hmaxf : maxL (flipYsOf h (q :: ps)) =
      max (h - 1 - (q.2 : Int)) (maxL (flipYsOf h ps)) :=
    maxL_cons _ _ hfl
  obtain ⟨hrev1, hrev2⟩ := flipYsOf_reverse h ps hps
  refine ⟨?_, ?_, ?_⟩
  · unfold Rect.covers
    refine ⟨?_, ?_, ?_, ?_⟩
    · show minL (xsOf (q :: ps)) * 4 + 50 ≤ minL (xsOf ps) * 4 + 50
      have hle := min_le_right ((q.1 : Int)) (minL (xsOf ps))
      rw [hminx]
      linarith
    · show minL (flipYsOf h (q :: ps)) * 4 + 100 ≤
        minL (flipYsOf h ps) * 4 + 100
      have hle := min_le_right (h - 1 - (q.2 : Int)) (minL (flipYsOf h ps))
      rw [hminf]
      linarith
    · show (maxL (xsOf ps) + 1) * 4 + 50 ≤ (maxL (xsOf (q :: ps)) + 1) * 4 + 50
      have hle := le_max_right ((q.1 : Int)) (maxL (xsOf ps))
      rw [hmaxx]
      linarith
    · show (maxL (flipYsOf h ps) + 1) * 4 + 100 ≤
        (maxL (flipYsOf h (q :: ps)) + 1) * 4 + 100
      have hle := le_max_right (h - 1 - (q.2 : Int)) (maxL (flipYsOf h ps))
      rw [hmaxf]
      linarith
  · rcases hout with hx1 | hx2 | hy1 | hy2
    · intro heq
      have hL := congrArg Rect.left heq
      simp only [boundsBox] at hL
      rw [hminx, min_eq_left (le_of_lt hx1)] at hL
      linarith
    · intro heq
      have hR := congrArg Rect.right heq
      simp only [boundsBox] at hR
      rw [hmaxx, max_eq_left (le_of_lt hx2)] at hR
      linarith
    · intro heq
      have hT := congrArg Rect.top heq
      simp only [boundsBox] at hT
      have hflip : maxL (flipYsOf h ps) < h - 1 - (q.2 : Int) := by
        rw [hrev2]
        linarith
      rw [hmaxf, max_eq_left (le_of_lt hflip)] at hT
      linarith
    · intro heq
      have hB := congrArg Rect.bottom heq
      simp only [boundsBox] at hB
      have hflip : h - 1 - (q.2 : Int) < minL (flipYsOf h ps) := by
        rw [hrev1]
        linarith
      rw [hminf, min_eq_left (le_of_lt hflip)] at hB
      linarith
  · intro r
    have hminr : minL (xsOf (r :: ps)) = min ((r.1 : Int)) (minL (xsOf ps)) :=
      minL_cons _ _ hxs
    have hmaxr : maxL (xsOf (r :: ps)) = max ((r.1 : Int)) (maxL (xsOf ps)) :=
      maxL_cons _ _ hxs
    unfold glyphWidth
    rw [hminr, hmaxr]
    have h1 := min_le_right ((r.1 : Int)) (minL (xsOf ps))
    have h2 := le_max_right ((r.1 : Int)) (maxL (xsOf ps))
    linarith

/-- Witness for C8: adding pixel `(2, 0)` (x strictly beyond the max) to
the one-pixel set `[(1, 1)]` strictly enlarges the box, and the advance
width does not decrease when a pixel is added. -/
theorem c8_witness :
    ([((1, 1) : Pix)] ≠ []) ∧
      maxL (xsOf [((1, 1) : Pix)]) < (((2, 0) : Pix).1 : Int) ∧
      (boundsBox 3 [(2, 0), (1, 1)]).covers (boundsBox 3 [(1, 1)]) ∧
      boundsBox 3 [(2, 0), (1, 1)] ≠ boundsBox 3 [(1, 1)] ∧
      glyphWidth [(1, 1)] ≤ glyphWidth [(5, 5), (1, 1)] := by
  have h := c8_bounds_monotone 3 [(1, 1)] (2, 0) (by decide)
    (Or.inr (Or.inl (by decide)))
  exact ⟨by decide, by decide, h.1, h.2.1, h.2.2 (5, 5)⟩

/-- C9: in the six-colour scan, a non-background pixel matching no target
colour is appended to the group that currently has the most pixels, and the
index chosen by the `max(...)` call is the first index attaining the
maximal length — every group is no longer, and every earlier group is
strictly shorter (ties go to the earliest target colour). -/
theorem c9_merge_into_largest (bg : RGB) (pixel : Pix → RGB)
    (targets : List RGB) (groups : List (List Pix)) (p : Pix)
    (hbg : pixel p ≠ bg) (hmiss : ∀ c ∈ targets, c ≠ pixel p) :
    sixStep bg pixel targets groups p =
        appendAt groups (firstMaxIdx (groups.map List.length)) p ∧
      (groups ≠ [] → firstMaxIdx (groups.map List.length) < groups.length) ∧
      (∀ k, k < groups.length →
        (groups.getD k []).length ≤
          (groups.getD (firstMaxIdx (groups.map List.length)) []).length) ∧
      (∀ k, k < firstMaxIdx (groups.map List.length) →
        (groups.getD k []).length <
          (groups.getD (firstMaxIdx (groups.map List.length)) []).length) ∧
      (firstMaxIdx (groups.map List.length) < groups.length →
        (appendAt groups (firstMaxIdx (groups.map List.length)) p).getD
            (firstMaxIdx (groups.map List.length)) [] =
          groups.getD (firstMaxIdx (groups.map List.length)) [] ++ [p]) := by
  have hnone : findColorIdx (pixel p) targets = none :=
    (findColorIdx_none_iff _ _).mpr hmiss
  have hmaplen : (groups.map List.length).length = groups.length :=
    List.length_map _ _
  refine ⟨?_, ?_, ?_, ?_, ?_⟩
  · simp [sixStep, hbg, hnone]
  · intro hne
    have hmne : groups.map List.length ≠ [] := by
      intro hemp
      exact hne (List.map_eq_nil_iff.mp hemp)
    have := firstMaxIdx_lt (groups.map List.length) hmne
    rwa [hmaplen] at this
  · intro k hk
    have hne : groups ≠ [] := by
      intro hemp
      rw [hemp] at hk
      cases hk
    have hmne : groups.map List.length ≠ [] := by
      intro hemp
      exact hne (List.map_eq_nil_iff.mp hemp)
    have hj : firstMaxIdx (groups.map List.length) < groups.length := by
      have := firstMaxIdx_lt (groups.map List.length) hmne
      rwa [hmaplen] at this
    have hkm : k < (groups.map List.length).length := by rwa [hmaplen]
    have hmax := firstMaxIdx_is_max (groups.map List.length) k hkm
    rwa [getD_map_length groups k hk,
      getD_map_length groups _ hj] at hmax
  · intro k hk
    have hne : groups ≠ [] := by
      intro hemp
      rw [hemp] at hk
      simp [firstMaxIdx] at hk
    have hmne : groups.map List.length ≠ [] := by
      intro hemp
      exact hne (List.map_eq_nil_iff.mp hemp)
    have hj : firstMaxIdx (groups.map List.length) < groups.length := by
      have := firstMaxIdx_lt (groups.map List.length) hmne
      rwa [hmaplen] at this
    have hklt : k < groups.length := lt_trans hk hj
    have hfirst := firstMaxIdx_is_first (groups.map List.length) k hk
    rwa [getD_map_length groups k hklt,
      getD_map_length groups _ hj] at hfirst
  · intro hj
    exact getD_appendAt_self groups _ p hj

/-- Witness for C9: a pixel of colour `(9, 9, 9)` (matching no demo target,
background `(0, 0, 0)`) is appended to the first of the three equal-length
groups. -/
theorem c9_witness :
    sixStep (0, 0, 0) demoPixelFun demoTargets demoGroups (5, 5) =
        appendAt demoGroups (firstMaxIdx (demoGroups.map List.length)) (5, 5) ∧
      firstMaxIdx (demoGroups.map List.length) < demoGroups.length ∧
      firstMaxIdx (demoGroups.map List.length) = 0 := by
  have h := c9_merge_into_largest (0, 0, 0) demoPixelFun demoTargets
    demoGroups (5, 5) (by decide) (by decide)
  exact ⟨h.1, h.2.1 (by decide), by decide⟩

/-- C10: for non-empty pixel sets the advance width is
`(max_x - min_x + 2) * 4 + 100`, so it depends only on the x-extent: two
sets with the same min/max raw x get the same advance width, and replacing
every pixel's y coordinate leaves the advance width unchanged. -/
theorem c10_advance_width (img : Img) (ps qs : List Pix)
    (hps : ps ≠ []) (hqs : qs ≠ [])
    (hx1 : minL (xsOf ps) = minL (xsOf qs))
    (hx2 : maxL (xsOf ps) = maxL (xsOf qs)) :
    glyphWidthOf img ps = (maxL (xsOf ps) - minL (xsOf ps) + 2) * 4 + 100 ∧
      glyphWidthOf img ps = glyphWidthOf img qs ∧
      ∀ f : Pix → Nat,
        glyphWidth (ps.map (fun p => (p.1, f p))) = glyphWidth ps := by
  refine ⟨?_, ?_, ?_⟩
  · rw [glyphWidthOf, if_neg hps]
    rfl
  · rw [glyphWidthOf, if_neg hps, glyphWidthOf, if_neg hqs]
    unfold glyphWidth
    rw [hx1, hx2]
  · intro f
    have hxeq : xsOf (ps.map (fun p => (p.1, f p))) = xsOf ps := by
      simp [xsOf, List.map_map, Function.comp]
    unfold glyphWidth
    rw [hxeq]

/-- Witness for C10: `[(1, 2)]` and `[(1, 9), (1, 0)]` share min/max raw x
and hence the advance width; changing the y coordinates of `[(1, 2)]`
leaves the width unchanged. -/
theorem c10_witness :
    ([((1, 2) : Pix)] ≠ []) ∧ ([((1, 9) : Pix), (1, 0)] ≠ []) ∧
      glyphWidthOf allBlackImg [(1, 2)] =
        (maxL (xsOf [(1, 2)]) - minL (xsOf [(1, 2)]) + 2) * 4 + 100 ∧
      glyphWidthOf allBlackImg [(1, 2)] =
        glyphWidthOf allBlackImg [(1, 9), (1, 0)] ∧
      glyphWidth ([((1, 2) : Pix)].map (fun p => (p.1, (fun _ => 0) p))) =
        glyphWidth [((1, 2) : Pix)] := by
  have h := c10_advance_width allBlackImg [(1, 2)] [(1, 9), (1, 0)]
    (by decide) (by decide) (by decide) (by decide)
  exact ⟨by decide, by decide, h.1, h.2.1, h.2.2 (fun _ => 0)⟩
